import Mathlib

/-!
# Verification of `scripts/validate-templates.js`

A shallow embedding of the template-validation script: recursive discovery of
`data.json` files with exclusion rules, per-file validation with structured
error capture, aggregation into a report, rendering, and the exit contract.

Modelling conventions:
* A filesystem snapshot is an inductive tree `FsTree` (mutual with `FsEntries`,
  the ordered directory listing returned by `fs.readdirSync`).  A directory
  whose listing cannot be read is `FsTree.unreadableDir` (reading it throws);
  an entry that is neither a regular file nor a directory (socket, symlink,
  ...) is `FsTree.other`.
* Paths are lists of name segments; `path.join dir name` is `dir ++ [name]`.
* A thrown JavaScript value is `JsThrown` (whether it is an `Error` instance,
  and its `message`).
* The outcome of the `try` block of `validateFile` for one file — reading,
  `JSON.parse`, and the injected `TemplateV2Schema.safeParse` — is summarised
  by `ValidationStep`: which stage threw (and what), or the validator's
  returned `{success, issues}` value.
* The script's mutable global `report` becomes explicit state passing:
  `validateFile` maps a report to the updated report, and the `forEach` loop
  is a left fold.
-/

namespace ValidateTemplates

/-- One issue as reported by the injected schema validator
(`result.error.issues` elements): a field path of segments, a message and a
code.  JS segments may be strings or array indices; indices are stringified
by `join`, so segments are modelled as strings. -/
structure RawIssue where
  path : List String
  message : String
  code : String
deriving DecidableEq, Repr

/-- An issue as stored in the report (`formatIssue` output): the field path
rendered as a single string. -/
structure Issue where
  path : String
  message : String
  code : String
deriving DecidableEq, Repr

/-- The `report.summary` counters. -/
structure Summary where
  totalFiles : Nat
  valid : Nat
  invalid : Nat
  parseErrors : Nat
deriving DecidableEq, Repr

/-- One element of `report.files`.  The JS object has an `errors` field only
when invalid, modelled with `Option`. -/
structure FileEntry where
  path : String
  valid : Bool
  errors : Option (List Issue)
deriving DecidableEq, Repr

/-- The global `report` object. -/
structure Report where
  summary : Summary
  files : List FileEntry
deriving DecidableEq, Repr

/-- The initial value of the global `report` (lines 10-18 of the script). -/
def emptyReport : Report :=
  { summary := { totalFiles := 0, valid := 0, invalid := 0, parseErrors := 0 },
    files := [] }

/-- `formatIssue` (lines 39-43): renders the issue path with
`issue.path.join("/")`. -/
def formatIssue (issue : RawIssue) : Issue :=
  { path := String.intercalate "/" issue.path,
    message := issue.message,
    code := issue.code }

/-- A thrown JavaScript value: whether it is an `Error` instance, and its
`message` property. -/
structure JsThrown where
  isError : Bool
  message : String
deriving DecidableEq, Repr

/-- The message the catch block stores:
`error instanceof Error ? error.message : "Unknown JSON parse error"`. -/
def thrownMessage (e : JsThrown) : String :=
  if e.isError then e.message else "Unknown JSON parse error"

/-- What happened inside the `try` block of `validateFile` for one file:
`fs.readFileSync` threw, `JSON.parse` threw, `TemplateV2Schema.safeParse`
itself threw, or `safeParse` returned a `{success, issues}` value (the
`issues` list is `result.error.issues`, only inspected when `success` is
false). -/
inductive ValidationStep where
  | readError (e : JsThrown)
  | parseError (e : JsThrown)
  | validatorThrow (e : JsThrown)
  | validatorResult (success : Bool) (issues : List RawIssue)
deriving DecidableEq, Repr

/-- `validateFile` (lines 45-78), as a state transformer on the report.
`relativePath` is the precomputed `path.relative(templatesRoot, filePath)`;
`step` is the outcome of the `try` block.  `totalFiles` is incremented before
the `try`; the three throwing stages all land in the same `catch`. -/
def validateFile (relativePath : String) (step : ValidationStep) (r : Report) : Report :=
  let s : Summary := { r.summary with totalFiles := r.summary.totalFiles + 1 }
  match step with
  | ValidationStep.validatorResult true _ =>
      { summary := { s with valid := s.valid + 1 },
        files := r.files ++ [{ path := relativePath, valid := true, errors := none }] }
  | ValidationStep.validatorResult false issues =>
      { summary := { s with invalid := s.invalid + 1 },
        files := r.files ++ [{ path := relativePath, valid := false,
                               errors := some (issues.map formatIssue) }] }
  | ValidationStep.readError e
  | ValidationStep.parseError e
  | ValidationStep.validatorThrow e =>
      { summary := { s with parseErrors := s.parseErrors + 1, invalid := s.invalid + 1 },
        files := r.files ++ [{ path := relativePath, valid := false,
                               errors := some [{ path := "",
                                                 message := thrownMessage e,
                                                 code := "parse_error" }] }] }

/-- Relative paths as produced by `path.relative` from the scan root:
the segments joined with the separator. -/
def renderPath (p : List String) : String := String.intercalate "/" p

/-- `files.forEach(validateFile)` (line 87): a left fold over the discovered
files, starting from the initial report.  `w` gives each file's `try`-block
outcome (its content and the validator's behaviour on it). -/
def runValidation (w : List String → ValidationStep) (files : List (List String)) : Report :=
  files.foldl (fun r f => validateFile (renderPath f) (w f) r) emptyReport

mutual
/-- A filesystem snapshot node. -/
inductive FsTree where
  | file : FsTree
  | other : FsTree
  | unreadableDir : FsTree
  | dir : FsEntries → FsTree
deriving DecidableEq, Repr

/-- A directory listing: the ordered `fs.readdirSync(dir, {withFileTypes:true})`
result (entry name paired with what the entry is). -/
inductive FsEntries where
  | nil : FsEntries
  | cons : String → FsTree → FsEntries → FsEntries
deriving DecidableEq, Repr
end

/-- `entry.name.startsWith(".")`: the first character of the name is `.`
(JS `startsWith` with a one-character argument). -/
def startsWithDot (n : String) : Bool :=
  match n.data with
  | [] => false
  | c :: _ => c == '.'

/-- The `for (const entry of entries)` loop body of `findDataJsonFiles`
(lines 23-35), accumulating results in entry order.  `dir` is the path of the
directory being listed.  Recursing into an unreadable subdirectory throws
(modelled by `Except.error` carrying the failing directory's path), which
propagates: entries after it are not processed. -/
def findInEntries (es : FsEntries) (dir : List String) :
    Except (List String) (List (List String)) :=
  match es with
  | FsEntries.nil => Except.ok []
  | FsEntries.cons name t rest =>
    if name == "node_modules" || startsWithDot name then
      findInEntries rest dir
    else
      match t with
      | FsTree.dir inner =>
        match findInEntries inner (dir ++ [name]) with
        | Except.error e => Except.error e
        | Except.ok sub =>
          match findInEntries rest dir with
          | Except.error e => Except.error e
          | Except.ok tail => Except.ok (sub ++ tail)
      | FsTree.unreadableDir => Except.error (dir ++ [name])
      | FsTree.file =>
        match findInEntries rest dir with
        | Except.error e => Except.error e
        | Except.ok tail =>
          Except.ok ((if name == "data.json" then [dir ++ [name]] else []) ++ tail)
      | FsTree.other => findInEntries rest dir
termination_by structural es

/-- `findDataJsonFiles` (lines 20-37): list the directory (throwing if it is
not a readable directory), then run the entry loop. -/
def findDataJsonFiles (t : FsTree) (dir : List String) :
    Except (List String) (List (List String)) :=
  match t with
  | FsTree.dir es => findInEntries es dir
  | _ => Except.error dir

/-- A directory-entry name the traversal excludes: `node_modules`, or a name
beginning with `.`. -/
def excludedName (n : String) : Bool :=
  n == "node_modules" || startsWithDot n

/-- Modelled from the spec's inclusion/exclusion rules (for comparison with
`findInEntries`): relative path `p` resolves, inside the listing `es`, to a
regular file named exactly `data.json`, every intermediate segment resolves to
a directory, and no segment on the path is an excluded name. -/
def qualEntries (es : FsEntries) (p : List String) : Bool :=
  match p with
  | [] => false
  | n :: rest =>
    match es with
    | FsEntries.nil => false
    | FsEntries.cons name t es2 =>
      (!excludedName n && name == n &&
        (match t, rest with
         | FsTree.file, [] => n == "data.json"
         | FsTree.dir inner, _ :: _ => qualEntries inner rest
         | _, _ => false))
      || qualEntries es2 (n :: rest)
termination_by structural es

/-- Modelled from the spec's inclusion/exclusion rules: `p` is the relative
path of a target file under the scan root `t`. -/
def qualifies (t : FsTree) (p : List String) : Bool :=
  match t with
  | FsTree.dir es => qualEntries es p
  | _ => false

/-- The outcome of a completed (non-crashed) run of `main`: the process exit
code, whether each report artifact was written, the final report (absent in
the zero-files case, where `main` exits before aggregating), and the console
messages. -/
structure MainResult where
  exitCode : Nat
  wroteJson : Bool
  wroteMd : Bool
  report : Option Report
  stdout : List String
  stderr : List String
deriving DecidableEq, Repr

/-- `path.join(repoRoot, "validation-report.md")`, with the root elided. -/
def reportMdPath : String := "validation-report.md"

/-- `main` (lines 80-125): discover, short-circuit on zero files, validate
every file, write both report artifacts, then decide the exit code.  A
discovery error propagates (no `try` anywhere on the path from
`findDataJsonFiles` to the top level), crashing the run: `Except.error`.
`w` gives each discovered file's `try`-block outcome. -/
def main (t : FsTree) (w : List String → ValidationStep) :
    Except (List String) MainResult :=
  match findDataJsonFiles t [] with
  | Except.error e => Except.error e
  | Except.ok files =>
    if files.length = 0 then
      Except.ok { exitCode := 0, wroteJson := false, wroteMd := false, report := none,
                  stdout := ["No data.json files found."], stderr := [] }
    else
      let report := runValidation w files
      if report.summary.invalid > 0 then
        Except.ok { exitCode := 1, wroteJson := true, wroteMd := true,
                    report := some report,
                    stdout := [],
                    stderr := ["Validation failed: " ++ toString report.summary.invalid
                                 ++ " file(s) invalid.",
                               "Report: " ++ reportMdPath] }
      else
        Except.ok { exitCode := 0, wroteJson := true, wroteMd := true,
                    report := some report,
                    stdout := ["All templates valid.", "Report: " ++ reportMdPath],
                    stderr := [] }

/-- The summary block of the markdown report (lines 95-101). -/
def summaryLines (s : Summary) : List String :=
  ["# Template Validation Report",
   "",
   "- Total files: " ++ toString s.totalFiles,
   "- Valid: " ++ toString s.valid,
   "- Invalid: " ++ toString s.invalid,
   "- Parse errors: " ++ toString s.parseErrors,
   ""]

/-- One issue line of the markdown report (lines 109-110): the rendered field
path in backticks, or `<root>` when the path string is empty (JS string
truthiness). -/
def issueLine (err : Issue) : String :=
  "- " ++ (if err.path = "" then "`<root>`" else "`" ++ err.path ++ "`")
    ++ ": " ++ err.message ++ " (" ++ err.code ++ ")"

/-- The lines one file contributes to the markdown report (lines 103-113):
nothing when valid (`continue`), otherwise a heading, one line per issue
(`file.errors || []`), and a blank line. -/
def fileSection (f : FileEntry) : List String :=
  if f.valid then []
  else ("## " ++ f.path) :: ((f.errors.getD []).map issueLine ++ [""])

/-- All lines of the markdown report (lines 94-113). -/
def formattedLines (r : Report) : List String :=
  summaryLines r.summary ++ r.files.flatMap fileSection

/-- `lines.join("\n")` (line 115). -/
def renderFormatted (r : Report) : String :=
  String.intercalate "\n" (formattedLines r)

/-- The single `report.files` entry `validateFile` appends for a given
`try`-block outcome (read off the branches of `validateFile`). -/
def resultEntry (relativePath : String) (step : ValidationStep) : FileEntry :=
  match step with
  | ValidationStep.validatorResult true _ =>
      { path := relativePath, valid := true, errors := none }
  | ValidationStep.validatorResult false issues =>
      { path := relativePath, valid := false, errors := some (issues.map formatIssue) }
  | ValidationStep.readError e
  | ValidationStep.parseError e
  | ValidationStep.validatorThrow e =>
      { path := relativePath, valid := false,
        errors := some [{ path := "", message := thrownMessage e, code := "parse_error" }] }

/-- Whether the `try` block of `validateFile` threw (landing in the `catch`). -/
def isThrow (step : ValidationStep) : Bool :=
  match step with
  | ValidationStep.validatorResult _ _ => false
  | _ => true

/-- The report invariants of the spec (§3, §8). -/
def invariants (r : Report) : Prop :=
  r.summary.totalFiles = r.summary.valid + r.summary.invalid ∧
  r.summary.valid + r.summary.invalid = r.files.length ∧
  r.summary.parseErrors ≤ r.summary.invalid

/-- Whether the injected validator returned `success = true`. -/
def isValidStep (step : ValidationStep) : Bool :=
  match step with
  | ValidationStep.validatorResult true _ => true
  | _ => false

/-- A concrete scan root used by witnesses: one ordinary directory holding a
target file, one hidden directory and one `node_modules` directory each also
holding a target-named file. -/
def sampleTree : FsTree :=
  FsTree.dir
    (FsEntries.cons "a"
      (FsTree.dir (FsEntries.cons "data.json" FsTree.file FsEntries.nil))
      (FsEntries.cons ".hidden"
        (FsTree.dir (FsEntries.cons "data.json" FsTree.file FsEntries.nil))
        (FsEntries.cons "node_modules"
          (FsTree.dir (FsEntries.cons "data.json" FsTree.file FsEntries.nil))
          FsEntries.nil)))

theorem validateFile_files (p : String) (s : ValidationStep) (r : Report) :
    (validateFile p s r).files = r.files ++ [resultEntry p s] := by
  cases s with
  | validatorResult success issues => cases success <;> rfl
  | readError e => rfl
  | parseError e => rfl
  | validatorThrow e => rfl

theorem validateFile_summary (p : String) (s : ValidationStep) (r : Report) :
    (validateFile p s r).summary =
      { totalFiles := r.summary.totalFiles + 1,
        valid := r.summary.valid + (if isValidStep s then 1 else 0),
        invalid := r.summary.invalid + (if isValidStep s then 0 else 1),
        parseErrors := r.summary.parseErrors + (if isThrow s then 1 else 0) } := by
  cases s with
  | validatorResult success issues =>
      cases success <;> simp [validateFile, isValidStep, isThrow]
  | readError e => simp [validateFile, isValidStep, isThrow]
  | parseError e => simp [validateFile, isValidStep, isThrow]
  | validatorThrow e => simp [validateFile, isValidStep, isThrow]

theorem foldl_validateFile_files (w : List String → ValidationStep)
    (files : List (List String)) (r : Report) :
    (files.foldl (fun acc f => validateFile (renderPath f) (w f) acc) r).files
      = r.files ++ files.map (fun f => resultEntry (renderPath f) (w f)) := by
  induction files generalizing r with
  | nil => simp
  | cons f fs ih => simp [List.foldl_cons, ih, validateFile_files]

theorem runValidation_files (w : List String → ValidationStep)
    (files : List (List String)) :
    (runValidation w files).files
      = files.map (fun f => resultEntry (renderPath f) (w f)) := by
  simpa [emptyReport] using foldl_validateFile_files w files emptyReport

theorem validateFile_invariants (p : String) (s : ValidationStep) (r : Report)
    (h : invariants r) : invariants (validateFile p s r) := by
  obtain ⟨h1, h2, h3⟩ := h
  cases s with
  | validatorResult success issues =>
      cases success <;> simp [validateFile, invariants] <;> omega
  | readError e => simp [validateFile, invariants]; omega
  | parseError e => simp [validateFile, invariants]; omega
  | validatorThrow e => simp [validateFile, invariants]; omega

theorem foldl_validateFile_invariants (w : List String → ValidationStep)
    (files : List (List String)) (r : Report) (h : invariants r) :
    invariants (files.foldl (fun acc f => validateFile (renderPath f) (w f) acc) r) := by
  induction files generalizing r with
  | nil => simpa using h
  | cons f fs ih => exact ih _ (validateFile_invariants _ _ _ h)

theorem emptyReport_invariants : invariants emptyReport :=
  ⟨rfl, rfl, Nat.le.refl⟩

theorem runValidation_invariants (w : List String → ValidationStep)
    (files : List (List String)) : invariants (runValidation w files) :=
  foldl_validateFile_invariants w files emptyReport emptyReport_invariants

/-- **C1**: for every sequence of processed files the final report satisfies
`totalFiles = valid + invalid`, `valid + invalid = length files` and
`parseErrors ≤ invalid`; the invariants are preserved by every single
`validateFile` step, since each step increments `totalFiles` exactly once,
appends exactly one entry to `files`, increments exactly one of
`valid`/`invalid` exactly once, and increments `parseErrors` at most once
and only together with `invalid`. -/
theorem aggregation_invariants (w : List String → ValidationStep)
    (files : List (List String)) (p : String) (s : ValidationStep) (r : Report)
    (h : invariants r) :
    invariants (runValidation w files) ∧
    invariants (validateFile p s r) ∧
    (validateFile p s r).summary.totalFiles = r.summary.totalFiles + 1 ∧
    (validateFile p s r).files.length = r.files.length + 1 ∧
    (((validateFile p s r).summary.valid = r.summary.valid + 1 ∧
        (validateFile p s r).summary.invalid = r.summary.invalid) ∨
      ((validateFile p s r).summary.valid = r.summary.valid ∧
        (validateFile p s r).summary.invalid = r.summary.invalid + 1)) ∧
    ((validateFile p s r).summary.parseErrors = r.summary.parseErrors ∨
      (validateFile p s r).summary.parseErrors = r.summary.parseErrors + 1) ∧
    ((validateFile p s r).summary.parseErrors = r.summary.parseErrors + 1 →
      (validateFile p s r).summary.invalid = r.summary.invalid + 1) := by
  refine ⟨runValidation_invariants w files, validateFile_invariants p s r h, ?_⟩
  rw [validateFile_summary, validateFile_files]
  cases s with
  | validatorResult success issues => cases success <;> simp [isValidStep, isThrow]
  | readError e => simp [isValidStep, isThrow]
  | parseError e => simp [isValidStep, isThrow]
  | validatorThrow e => simp [isValidStep, isThrow]

/-- Witness for `aggregation_invariants`: invariants at a concrete step from
the initial report. -/
theorem aggregation_invariants_witness :
    invariants (validateFile "x/data.json"
      (ValidationStep.readError { isError := true, message := "m" }) emptyReport) :=
  (aggregation_invariants (fun _ => ValidationStep.validatorResult true []) []
      "x/data.json" (ValidationStep.readError { isError := true, message := "m" })
      emptyReport ⟨rfl, rfl, Nat.le.refl⟩).2.1

/-- **C2**: when zero target files are discovered the run exits 0, prints an
informational message and writes no report files; otherwise it exits 1 iff
`invalid > 0` and 0 otherwise (both artifacts written). -/
theorem exit_contract (t : FsTree) (w : List String → ValidationStep)
    (fs : List (List String)) (h : findDataJsonFiles t [] = Except.ok fs) :
    (fs = [] → main t w = Except.ok
      { exitCode := 0, wroteJson := false, wroteMd := false, report := none,
        stdout := ["No data.json files found."], stderr := [] }) ∧
    (fs ≠ [] → ∃ res : MainResult, main t w = Except.ok res ∧
      res.wroteJson = true ∧ res.wroteMd = true ∧
      (res.exitCode = 1 ↔ 0 < (runValidation w fs).summary.invalid) ∧
      (res.exitCode = 0 ↔ (runValidation w fs).summary.invalid = 0)) := by
  constructor
  · intro hfs; subst hfs; simp [main, h]
  · intro hfs
    have hlen : ¬ fs.length = 0 := by simpa [List.length_eq_zero] using hfs
    unfold main
    rw [h]
    simp only [if_neg hlen]
    by_cases hinv : (runValidation w fs).summary.invalid > 0
    · rw [if_pos hinv]
      refine ⟨_, rfl, rfl, rfl, ?_, ?_⟩
      · show (1 : Nat) = 1 ↔ 0 < (runValidation w fs).summary.invalid
        omega
      · show (1 : Nat) = 0 ↔ (runValidation w fs).summary.invalid = 0
        omega
    · rw [if_neg hinv]
      refine ⟨_, rfl, rfl, rfl, ?_, ?_⟩
      · show (0 : Nat) = 1 ↔ 0 < (runValidation w fs).summary.invalid
        omega
      · show (0 : Nat) = 0 ↔ (runValidation w fs).summary.invalid = 0
        omega

/-- Witness for `exit_contract`: an empty scan root gives the zero-files
terminal case. -/
theorem exit_contract_witness :
    main (FsTree.dir FsEntries.nil) (fun _ => ValidationStep.validatorResult true [])
      = Except.ok { exitCode := 0, wroteJson := false, wroteMd := false, report := none,
                    stdout := ["No data.json files found."], stderr := [] } :=
  (exit_contract (FsTree.dir FsEntries.nil)
      (fun _ => ValidationStep.validatorResult true []) [] rfl).1 rfl

/-- **C3** (amended): `parseErrors` is incremented iff the `try` block threw
(read failure, JSON-syntax failure, or the validator itself throwing), and
every catch-produced result's sole issue indeed has code `parse_error`; but a
validator that *returns* `success=false` with issues — even a sole issue whose
code is `parse_error` — increments only `invalid`, never `parseErrors`. -/
theorem parse_error_classification (p : String) (s : ValidationStep) (r : Report) :
    ((validateFile p s r).summary.parseErrors
        = r.summary.parseErrors + if isThrow s then 1 else 0) ∧
    (isThrow s = true →
      ∃ m, resultEntry p s =
        { path := p, valid := false,
          errors := some [{ path := "", message := m, code := "parse_error" }] }) ∧
    (∀ issues : List RawIssue,
      (validateFile p (ValidationStep.validatorResult false issues) r).summary.parseErrors
        = r.summary.parseErrors) := by
  refine ⟨?_, ?_, fun issues => rfl⟩
  · rw [validateFile_summary]
  · intro hs
    cases s with
    | validatorResult success issues => simp [isThrow] at hs
    | readError e => exact ⟨thrownMessage e, rfl⟩
    | parseError e => exact ⟨thrownMessage e, rfl⟩
    | validatorThrow e => exact ⟨thrownMessage e, rfl⟩

/-- Counterexample to **C3** as stated: an injected validator *returning*
`success=false` with a single issue whose code is `parse_error` produces a
FileResult whose sole issue has code `parse_error`, yet `parseErrors` is NOT
incremented (it stays 0 while `invalid` becomes 1). -/
theorem parse_error_classification_cex :
    ((validateFile "t/data.json"
        (ValidationStep.validatorResult false
          [{ path := [], message := "m", code := "parse_error" }])
        emptyReport).files
      = [{ path := "t/data.json", valid := false,
           errors := some [{ path := "", message := "m", code := "parse_error" }] }]) ∧
    (validateFile "t/data.json"
        (ValidationStep.validatorResult false
          [{ path := [], message := "m", code := "parse_error" }])
        emptyReport).summary.parseErrors = 0 ∧
    (validateFile "t/data.json"
        (ValidationStep.validatorResult false
          [{ path := [], message := "m", code := "parse_error" }])
        emptyReport).summary.invalid = 1 :=
  ⟨rfl, rfl, rfl⟩

/-- Witness for `parse_error_classification` at a concrete throwing step. -/
theorem parse_error_classification_witness :
    ∃ m, resultEntry "y/data.json"
        (ValidationStep.parseError { isError := true, message := "bad" })
      = { path := "y/data.json", valid := false,
          errors := some [{ path := "", message := m,
                            code := "parse_error" }] } :=
  (parse_error_classification "y/data.json"
    (ValidationStep.parseError { isError := true, message := "bad" }) emptyReport).2.1 rfl

/-- **C4**: a target file whose content cannot be read or parsed yields
exactly one FileResult, invalid, with exactly one issue
`{path := "", code := "parse_error"}` carrying the error's message; it counts
toward both `invalid` and `parseErrors`, and the run is not aborted: every
file in the discovered list contributes exactly its own FileResult. -/
theorem parse_failure_isolation (p : String) (e : JsThrown) (s : ValidationStep)
    (r : Report) (he : e.isError = true)
    (hs : s = ValidationStep.readError e ∨ s = ValidationStep.parseError e) :
    validateFile p s r =
      { summary := { totalFiles := r.summary.totalFiles + 1, valid := r.summary.valid,
                     invalid := r.summary.invalid + 1,
                     parseErrors := r.summary.parseErrors + 1 },
        files := r.files ++ [{ path := p, valid := false,
                               errors := some [{ path := "", message := e.message, code := "parse_error" }] }] } ∧
    (∀ (w : List String → ValidationStep) (files : List (List String)),
        (runValidation w files).files
          = files.map fun f => resultEntry (renderPath f) (w f)) := by
  constructor
  · rcases hs with hs | hs <;> subst hs <;> simp [validateFile, thrownMessage, he]
  · exact runValidation_files

/-- Witness for `parse_failure_isolation` at a concrete unreadable file. -/
theorem parse_failure_isolation_witness :
    validateFile "b/data.json"
        (ValidationStep.readError { isError := true, message := "boom" }) emptyReport =
      { summary := { totalFiles := 1, valid := 0, invalid := 1, parseErrors := 1 },
        files := [{ path := "b/data.json", valid := false,
                    errors := some [{ path := "", message := "boom", code := "parse_error" }] }] } :=
  (parse_failure_isolation "b/data.json" { isError := true, message := "boom" }
      (ValidationStep.readError { isError := true, message := "boom" })
      emptyReport rfl (Or.inl rfl)).1

/-- **C6**: mapping of the injected validator's returned value: `success=true`
gives a valid FileResult with no issues; `success=false` gives an invalid
FileResult with one issue per reported issue in order, field paths rendered
as the `/`-joined string of the segments (empty sequence renders as `""`);
in particular path `["a", "b"]` renders as `"a/b"`. -/
theorem schema_result_mapping (p : String) (issues : List RawIssue) (r : Report) :
    (validateFile p (ValidationStep.validatorResult true issues) r =
      { summary := { r.summary with
                     totalFiles := r.summary.totalFiles + 1,
                     valid := r.summary.valid + 1 },
        files := r.files ++ [{ path := p, valid := true, errors := none }] }) ∧
    (validateFile p (ValidationStep.validatorResult false issues) r =
      { summary := { r.summary with
                     totalFiles := r.summary.totalFiles + 1,
                     invalid := r.summary.invalid + 1 },
        files := r.files ++ [{ path := p, valid := false,
                               errors := some (issues.map formatIssue) }] }) ∧
    (∀ i : RawIssue, formatIssue i =
      { path := String.intercalate "/" i.path, message := i.message, code := i.code }) ∧
    (∀ i : RawIssue, i.path = [] → (formatIssue i).path = "") ∧
    formatIssue { path := ["a", "b"], message := "m", code := "c" }
      = { path := "a/b", message := "m", code := "c" } := by
  refine ⟨rfl, rfl, fun i => rfl, fun i hi => ?_, rfl⟩
  show String.intercalate "/" i.path = ""
  rw [hi]
  rfl

/-- Witness for `schema_result_mapping`: an empty field path renders as the
empty string. -/
theorem schema_result_mapping_witness :
    (formatIssue { path := [], message := "m", code := "c" }).path = "" :=
  (schema_result_mapping "p" [] emptyReport).2.2.2.1
    { path := [], message := "m", code := "c" } rfl

/-- **C8**: the pipeline is deterministic — over equal filesystem snapshots
and equal injected-validator behaviour, two runs return identical outcomes
(hence byte-identical serialized reports), and discovery returns the same
file sequence in the same order. -/
theorem run_determinism (t t2 : FsTree) (w w2 : List String → ValidationStep)
    (ht : t = t2) (hw : w = w2) :
    main t w = main t2 w2 ∧
    findDataJsonFiles t [] = findDataJsonFiles t2 [] ∧
    (∀ fs, runValidation w fs = runValidation w2 fs) := by
  subst ht; subst hw; exact ⟨rfl, rfl, fun _ => rfl⟩

/-- Witness for `run_determinism` at a concrete snapshot. -/
theorem run_determinism_witness :
    main (FsTree.dir (FsEntries.cons "data.json" FsTree.file FsEntries.nil))
        (fun _ => ValidationStep.validatorResult true [])
      = main (FsTree.dir (FsEntries.cons "data.json" FsTree.file FsEntries.nil))
        (fun _ => ValidationStep.validatorResult true []) :=
  (run_determinism _ _ _ _ rfl rfl).1

/-- **C9**: a directory-read error during discovery propagates out of
`findDataJsonFiles` and `main` uncaught — the run crashes with no file
validated, no report produced and no artifact written; it is never converted
into a per-file FileResult. -/
theorem discovery_error_fatal (t : FsTree) (w : List String → ValidationStep)
    (e : List String) (h : findDataJsonFiles t [] = Except.error e) :
    main t w = Except.error e ∧ ∀ res : MainResult, main t w ≠ Except.ok res := by
  have hm : main t w = Except.error e := by unfold main; rw [h]
  refine ⟨hm, fun res hres => ?_⟩
  rw [hm] at hres
  exact Except.noConfusion hres

/-- Witness for `discovery_error_fatal`: a scan root containing an unreadable
subdirectory crashes the run. -/
theorem discovery_error_fatal_witness :
    main (FsTree.dir (FsEntries.cons "x" FsTree.unreadableDir FsEntries.nil))
        (fun _ => ValidationStep.validatorResult true [])
      = Except.error ["x"] :=
  (discovery_error_fatal (FsTree.dir (FsEntries.cons "x" FsTree.unreadableDir FsEntries.nil))
      (fun _ => ValidationStep.validatorResult true []) ["x"] rfl).1

/-- **C10**: an injected validator that throws on a parsed document does not
propagate: the file is recorded invalid with a single issue of path `""` and
code `parse_error` carrying the exception's message, counted toward both
`invalid` and `parseErrors`, and the fold continues — every discovered file
still yields exactly one FileResult. -/
theorem validator_throw_recovered (p : String) (e : JsThrown) (r : Report)
    (he : e.isError = true) :
    validateFile p (ValidationStep.validatorThrow e) r =
      { summary := { totalFiles := r.summary.totalFiles + 1, valid := r.summary.valid,
                     invalid := r.summary.invalid + 1,
                     parseErrors := r.summary.parseErrors + 1 },
        files := r.files ++ [{ path := p, valid := false,
                               errors := some [{ path := "", message := e.message, code := "parse_error" }] }] } ∧
    (∀ (w : List String → ValidationStep) (files : List (List String)),
        (runValidation w files).files.length = files.length) := by
  constructor
  · simp [validateFile, thrownMessage, he]
  · intro w files
    rw [runValidation_files]
    exact List.length_map _ _

/-- Witness for `validator_throw_recovered` at a concrete throwing validator. -/
theorem validator_throw_recovered_witness :
    validateFile "c/data.json"
        (ValidationStep.validatorThrow { isError := true, message := "schema blew up" })
        emptyReport =
      { summary := { totalFiles := 1, valid := 0, invalid := 1, parseErrors := 1 },
        files := [{ path := "c/data.json", valid := false,
                    errors := some [{ path := "", message := "schema blew up",
                                      code := "parse_error" }] }] } :=
  (validator_throw_recovered "c/data.json" { isError := true, message := "schema blew up" }
      emptyReport rfl).1

theorem flatMap_fileSection_filter (l : List FileEntry) :
    l.flatMap fileSection
      = ((l.filter fun f => !f.valid).map fileSection).flatten := by
  induction l with
  | nil => rfl
  | cons f fs ih =>
    cases hf : f.valid <;>
      simp [List.flatMap_cons, List.filter_cons, hf, fileSection, ih]

/-- **C7**: the formatted report is the four summary counters followed by one
section per invalid file only (in order; valid files contribute nothing), and
each section is a heading followed by one line per issue of the form
`- <field-path-or-root>: <message> (<code>)`, where an empty field path is
displayed as `<root>`. -/
theorem formatted_report_shape (r : Report) :
    (formattedLines r = summaryLines r.summary ++
      ((r.files.filter fun f => !f.valid).map fileSection).flatten) ∧
    (∀ f : FileEntry, f.valid = false →
      fileSection f = ("## " ++ f.path) :: ((f.errors.getD []).map issueLine ++ [""])) ∧
    (∀ f : FileEntry, f.valid = true → fileSection f = []) ∧
    (∀ e : Issue, issueLine e
      = "- " ++ (if e.path = "" then "`<root>`" else "`" ++ e.path ++ "`")
          ++ ": " ++ e.message ++ " (" ++ e.code ++ ")") ∧
    summaryLines r.summary
      = ["# Template Validation Report", "",
         "- Total files: " ++ toString r.summary.totalFiles,
         "- Valid: " ++ toString r.summary.valid,
         "- Invalid: " ++ toString r.summary.invalid,
         "- Parse errors: " ++ toString r.summary.parseErrors, ""] := by
  refine ⟨?_, fun f hf => ?_, fun f hf => ?_, fun e => rfl, rfl⟩
  · unfold formattedLines
    rw [flatMap_fileSection_filter]
  · simp [fileSection, hf]
  · simp [fileSection, hf]

/-- Witness for `formatted_report_shape`: the section of a concrete invalid
file with one root-path issue. -/
theorem formatted_report_shape_witness :
    fileSection
        { path := "a/data.json", valid := false,
          errors := some [{ path := "", message := "m", code := "c" }] }
      = ["## a/data.json", "- `<root>`: m (c)"] ++ [""] :=
  (formatted_report_shape emptyReport).2.1
    { path := "a/data.json", valid := false,
      errors := some [{ path := "", message := "m", code := "c" }] } rfl

theorem qualEntries_nilE (p : List String) : qualEntries FsEntries.nil p = false := by
  cases p with
  | nil => exact qualEntries.eq_1 _
  | cons n rest => exact qualEntries.eq_2 n rest

theorem qualEntries_cons_unfold (name : String) (t : FsTree) (es : FsEntries)
    (n : String) (rest : List String) :
    ∃ C : Bool, qualEntries (FsEntries.cons name t es) (n :: rest)
      = (!excludedName n && (name == n) && C || qualEntries es (n :: rest)) := by
  cases t with
  | file =>
    cases rest with
    | nil => exact ⟨_, qualEntries.eq_3 n name es⟩
    | cons b p3 => exact ⟨false, qualEntries.eq_5 n _ name FsTree.file es (by simp) (by simp)⟩
  | dir inner =>
    cases rest with
    | nil => exact ⟨false, qualEntries.eq_5 n _ name (FsTree.dir inner) es (by simp) (by simp)⟩
    | cons b p3 => exact ⟨_, qualEntries.eq_4 n name es inner b p3⟩
  | other => exact ⟨false, qualEntries.eq_5 n rest name FsTree.other es (by simp) (by simp)⟩
  | unreadableDir =>
    exact ⟨false, qualEntries.eq_5 n rest name FsTree.unreadableDir es (by simp) (by simp)⟩

theorem qualEntries_cons_excluded (name : String) (t : FsTree) (es : FsEntries)
    (hex : excludedName name = true) (p : List String) :
    qualEntries (FsEntries.cons name t es) p = qualEntries es p := by
  cases p with
  | nil => rw [qualEntries.eq_1, qualEntries.eq_1]
  | cons n rest =>
    obtain ⟨C, hC⟩ := qualEntries_cons_unfold name t es n rest
    rw [hC]
    cases hb : (name == n) with
    | false => simp [hb]
    | true =>
      have hnn : name = n := by simpa using hb
      subst hnn
      simp [hex]

theorem qualEntries_cons_other (name : String) (es : FsEntries) (p : List String) :
    qualEntries (FsEntries.cons name FsTree.other es) p = qualEntries es p := by
  cases p with
  | nil => rw [qualEntries.eq_1, qualEntries.eq_1]
  | cons n rest =>
    rw [qualEntries.eq_5 n rest name FsTree.other es (by simp) (by simp)]
    simp


theorem findInEntries_mem (es : FsEntries) (dir : List String)
    (fs : List (List String)) (h : findInEntries es dir = Except.ok fs)
    (q : List String) :
    q ∈ fs ↔ ∃ p, q = dir ++ p ∧ qualEntries es p = true := by
  cases es with
  | nil =>
    rw [findInEntries.eq_1] at h
    injection h with h2
    subst h2
    simp [qualEntries_nilE]
  | cons name t rest =>
    by_cases hex : (name == "node_modules" || startsWithDot name) = true
    · have hexx : excludedName name = true := hex
      have hrest : findInEntries rest dir = Except.ok fs := by
        cases t with
        | dir inner => rw [findInEntries.eq_2, if_pos hex] at h; exact h
        | unreadableDir => rw [findInEntries.eq_3, if_pos hex] at h; exact h
        | file => rw [findInEntries.eq_4, if_pos hex] at h; exact h
        | other => rw [findInEntries.eq_5, if_pos hex] at h; exact h
      rw [findInEntries_mem rest dir fs hrest q]
      constructor
      · rintro ⟨p, hp, hq⟩
        exact ⟨p, hp, by rw [qualEntries_cons_excluded name t rest hexx]; exact hq⟩
      · rintro ⟨p, hp, hq⟩
        rw [qualEntries_cons_excluded name t rest hexx] at hq
        exact ⟨p, hp, hq⟩
    · have hne : excludedName name = false := by simpa [excludedName] using hex
      cases t with
      | unreadableDir =>
        rw [findInEntries.eq_3, if_neg hex] at h
        exact Except.noConfusion h
      | other =>
        rw [findInEntries.eq_5, if_neg hex] at h
        rw [findInEntries_mem rest dir fs h q]
        constructor
        · rintro ⟨p, hp, hq⟩
          exact ⟨p, hp, by rw [qualEntries_cons_other]; exact hq⟩
        · rintro ⟨p, hp, hq⟩
          rw [qualEntries_cons_other] at hq
          exact ⟨p, hp, hq⟩
      | dir inner =>
        rw [findInEntries.eq_2, if_neg hex] at h
        cases hsub : findInEntries inner (dir ++ [name]) with
        | error e => rw [hsub] at h; exact Except.noConfusion h
        | ok sub =>
          rw [hsub] at h
          cases htail : findInEntries rest dir with
          | error e => rw [htail] at h; exact Except.noConfusion h
          | ok tail =>
            rw [htail] at h
            injection h with h2
            subst h2
            have ih1 := findInEntries_mem inner (dir ++ [name]) sub hsub q
            have ih2 := findInEntries_mem rest dir tail htail q
            rw [List.mem_append, ih1, ih2]
            constructor
            · rintro (⟨p1, rfl, hq1⟩ | ⟨p2, hp2, hq2⟩)
              · cases p1 with
                | nil => rw [qualEntries.eq_1] at hq1; exact Bool.noConfusion hq1
                | cons b p3 =>
                  refine ⟨name :: b :: p3, by simp, ?_⟩
                  rw [qualEntries.eq_4]
                  simp [hne, hq1]
              · refine ⟨p2, hp2, ?_⟩
                cases p2 with
                | nil => rw [qualEntries.eq_1] at hq2; exact Bool.noConfusion hq2
                | cons b p3 =>
                  obtain ⟨C, hC⟩ := qualEntries_cons_unfold name (FsTree.dir inner) rest b p3
                  rw [hC]
                  simp [hq2]
            · rintro ⟨p, rfl, hq⟩
              cases p with
              | nil => rw [qualEntries.eq_1] at hq; exact Bool.noConfusion hq
              | cons b p3 =>
                cases p3 with
                | nil =>
                  rw [qualEntries.eq_5 b [] name (FsTree.dir inner) rest
                        (by simp) (by simp)] at hq
                  simp only [Bool.and_false, Bool.false_or] at hq
                  exact Or.inr ⟨[b], rfl, hq⟩
                | cons c p4 =>
                  rw [qualEntries.eq_4] at hq
                  rcases (Bool.or_eq_true _ _).mp hq with hl | hr
                  · simp only [Bool.and_eq_true] at hl
                    obtain ⟨⟨h3, h4⟩, h2⟩ := hl
                    have hnb : name = b := by simpa using h4
                    subst hnb
                    exact Or.inl ⟨c :: p4, by simp, h2⟩
                  · exact Or.inr ⟨b :: c :: p4, rfl, hr⟩
      | file =>
        rw [findInEntries.eq_4, if_neg hex] at h
        cases htail : findInEntries rest dir with
        | error e => rw [htail] at h; exact Except.noConfusion h
        | ok tail =>
          rw [htail] at h
          injection h with h2
          subst h2
          have ih2 := findInEntries_mem rest dir tail htail q
          by_cases hdj : (name == "data.json") = true
          · rw [if_pos hdj]
            have hnd : name = "data.json" := by simpa using hdj
            simp only [List.singleton_append, List.mem_cons]
            rw [ih2]
            constructor
            · rintro (rfl | ⟨p2, hp2, hq2⟩)
              · refine ⟨[name], rfl, ?_⟩
                rw [qualEntries.eq_3]
                simp [hne, hdj]
              · refine ⟨p2, hp2, ?_⟩
                cases p2 with
                | nil => rw [qualEntries.eq_1] at hq2; exact Bool.noConfusion hq2
                | cons b p3 =>
                  obtain ⟨C, hC⟩ := qualEntries_cons_unfold name FsTree.file rest b p3
                  rw [hC]
                  simp [hq2]
            · rintro ⟨p, rfl, hq⟩
              cases p with
              | nil => rw [qualEntries.eq_1] at hq; exact Bool.noConfusion hq
              | cons b p3 =>
                cases p3 with
                | nil =>
                  rw [qualEntries.eq_3] at hq
                  rcases (Bool.or_eq_true _ _).mp hq with hl | hr
                  · simp only [Bool.and_eq_true] at hl
                    obtain ⟨⟨h3, h4⟩, h2⟩ := hl
                    have hnb : name = b := by simpa using h4
                    subst hnb
                    exact Or.inl rfl
                  · exact Or.inr ⟨[b], rfl, hr⟩
                | cons c p4 =>
                  rw [qualEntries.eq_5 b (c :: p4) name FsTree.file rest
                        (by simp) (by simp)] at hq
                  simp only [Bool.and_false, Bool.false_or] at hq
                  exact Or.inr ⟨b :: c :: p4, rfl, hq⟩
          · rw [if_neg hdj]
            simp only [List.nil_append]
            rw [ih2]
            constructor
            · rintro ⟨p2, hp2, hq2⟩
              refine ⟨p2, hp2, ?_⟩
              cases p2 with
              | nil => rw [qualEntries.eq_1] at hq2; exact Bool.noConfusion hq2
              | cons b p3 =>
                obtain ⟨C, hC⟩ := qualEntries_cons_unfold name FsTree.file rest b p3
                rw [hC]
                simp [hq2]
            · rintro ⟨p, hp, hq⟩
              refine ⟨p, hp, ?_⟩
              cases p with
              | nil => rw [qualEntries.eq_1] at hq; exact Bool.noConfusion hq
              | cons b p3 =>
                cases p3 with
                | nil =>
                  rw [qualEntries.eq_3] at hq
                  rcases (Bool.or_eq_true _ _).mp hq with hl | hr
                  · simp only [Bool.and_eq_true] at hl
                    obtain ⟨⟨h3, h4⟩, h2⟩ := hl
                    have hnb : name = b := by simpa using h4
                    subst hnb
                    exact absurd h2 (by simp [hdj])
                  · exact hr
                | cons c p4 =>
                  rw [qualEntries.eq_5 b (c :: p4) name FsTree.file rest
                        (by simp) (by simp)] at hq
                  simp only [Bool.and_false, Bool.false_or] at hq
                  exact hq
termination_by structural es


theorem qualEntries_excluded_path (es : FsEntries) (p : List String) (n : String)
    (hn : n ∈ p) (hex : excludedName n = true) : qualEntries es p = false := by
  cases es with
  | nil => exact qualEntries_nilE p
  | cons name t rest =>
    cases p with
    | nil => exact qualEntries.eq_1 _
    | cons a p2 =>
      have h2 : qualEntries rest (a :: p2) = false :=
        qualEntries_excluded_path rest (a :: p2) n hn hex
      obtain ⟨C, hC⟩ := qualEntries_cons_unfold name t rest a p2
      rcases List.mem_cons.mp hn with rfl | hn2
      · rw [hC, h2]
        simp [hex]
      · cases p2 with
        | nil => cases hn2
        | cons b p3 =>
          cases t with
          | dir inner =>
            have h3 : qualEntries inner (b :: p3) = false :=
              qualEntries_excluded_path inner (b :: p3) n hn2 hex
            rw [qualEntries.eq_4, h3, h2]
            simp
          | file =>
            rw [qualEntries.eq_5 a (b :: p3) name FsTree.file rest (by simp) (by simp),
                h2]
            simp
          | other => rw [qualEntries_cons_other, h2]
          | unreadableDir =>
            rw [qualEntries.eq_5 a (b :: p3) name FsTree.unreadableDir rest
                  (by simp) (by simp), h2]
            simp
termination_by structural es

theorem qualifies_excluded (t : FsTree) (q : List String) (n : String)
    (hn : n ∈ q) (hex : excludedName n = true) : qualifies t q = false := by
  cases t with
  | dir es => exact qualEntries_excluded_path es q n hn hex
  | file => rfl
  | other => rfl
  | unreadableDir => rfl

/-- **C5**: discovery membership — a path is returned by `findDataJsonFiles`
iff it resolves to a regular file named exactly `data.json` with every
intermediate segment a directory and no segment on the path excluded
(`node_modules` or leading `.`); consequently a path through a hidden or
`node_modules` directory is never returned (such directories are pruned). -/
theorem discovery_membership (t : FsTree) (fs : List (List String))
    (h : findDataJsonFiles t [] = Except.ok fs) (q : List String) :
    (q ∈ fs ↔ qualifies t q = true) ∧
    (∀ n, n ∈ q → excludedName n = true → q ∉ fs) := by
  have hiff : q ∈ fs ↔ qualifies t q = true := by
    cases t with
    | dir es =>
      have hm := findInEntries_mem es [] fs h q
      simpa [qualifies] using hm
    | file => exact Except.noConfusion h
    | other => exact Except.noConfusion h
    | unreadableDir => exact Except.noConfusion h
  refine ⟨hiff, fun n hn hex hq => ?_⟩
  have hqual := hiff.mp hq
  rw [qualifies_excluded t q n hn hex] at hqual
  exact Bool.noConfusion hqual

/-- Witness for `discovery_membership` on `sampleTree`: the surviving path
qualifies, and a path through the hidden directory is not returned. -/
theorem discovery_membership_witness :
    qualifies sampleTree ["a", "data.json"] = true ∧
    [".hidden", "data.json"] ∉ [["a", "data.json"]] :=
  ⟨(discovery_membership sampleTree [["a", "data.json"]] rfl
      ["a", "data.json"]).1.mp (List.Mem.head _),
   (discovery_membership sampleTree [["a", "data.json"]] rfl
      [".hidden", "data.json"]).2 ".hidden" (List.Mem.head _) rfl⟩

end ValidateTemplates
